import Mathlib

/-!
# Verification of `playlist_logic.py`

A shallow embedding of the playlist-classification module.  Python strings
are modelled as lists of code points (`PyStr := List Nat`), Python's
dynamically-typed values as the inductive `PyVal`, and dictionaries as
association lists with string keys.  Fallible Python expressions (the
comparison operators, which can raise `TypeError`, and dictionary
subscripting, which can raise `KeyError`) return `Except PyErr`.
-/

set_option autoImplicit false

namespace Playlist

/-- Python strings, as lists of Unicode code points. -/
abbrev PyStr := List Nat

/-- Embed a Lean string literal as a list of code points. -/
def strLit (s : String) : PyStr := s.data.map Char.toNat

/-- The universe of Python values the module manipulates: strings, ints,
booleans, `None` and lists.  (Floats and further container types are outside
the modelled universe.) -/
inductive PyVal where
  | str (s : PyStr)
  | int (n : Int)
  | bool (b : Bool)
  | none
  | list (xs : List PyVal)

/-- Python exceptions that can escape the modelled code. -/
inductive PyErr where
  | typeError
  | keyError
  deriving DecidableEq

/-- ASCII whitespace recognised by `str.strip()` (space, tab, newline,
vertical tab, form feed, carriage return). -/
def isSp (c : Nat) : Bool :=
  decide (c = 32 ∨ c = 9 ∨ c = 10 ∨ c = 11 ∨ c = 12 ∨ c = 13)

/-- `str.strip()`: drop whitespace from both ends. -/
def strip (l : PyStr) : PyStr :=
  ((l.dropWhile isSp).reverse.dropWhile isSp).reverse

/-- Lowercase a single code point (ASCII range, as `str.lower` restricted to
the modelled alphabet). -/
def lowChar (c : Nat) : Nat :=
  if 65 ≤ c ∧ c ≤ 90 then c + 32 else c

/-- `str.lower()`. -/
def lower (l : PyStr) : PyStr := l.map lowChar

/-- Decimal digits of a natural number, most significant first (fuel-based so
that it reduces definitionally). -/
def natStrAux : Nat → Nat → List Nat → List Nat
  | 0, _, acc => acc
  | fuel + 1, n, acc =>
    if n < 10 then (48 + n) :: acc
    else natStrAux fuel (n / 10) ((48 + n % 10) :: acc)

/-- `str(n)` for a natural number. -/
def natStr (n : Nat) : PyStr := natStrAux (n + 1) n []

/-- `str(n)` for an integer. -/
def intStr (n : Int) : PyStr :=
  if n < 0 then 45 :: natStr n.natAbs else natStr n.toNat

mutual
/-- `repr(v)`: like `str(v)` except that strings are quoted.  List elements
are rendered with `repr`, as in Python. -/
def pyRepr : PyVal → PyStr
  | .str s => 39 :: (s ++ [39])
  | .int n => intStr n
  | .bool b => if b then strLit "True" else strLit "False"
  | .none => strLit "None"
  | .list xs => 91 :: (pyReprList xs ++ [93])

/-- Comma-separated `repr`s of the elements of a list. -/
def pyReprList : List PyVal → PyStr
  | [] => []
  | [x] => pyRepr x
  | x :: y :: rest => pyRepr x ++ (44 :: 32 :: pyReprList (y :: rest))
end

/-- `str(v)`: identity on strings, `repr` on every other modelled value. -/
def pyStr : PyVal → PyStr
  | .str s => s
  | v => pyRepr v

/-- Python truthiness for the modelled values. -/
def truthy : PyVal → Bool
  | .str s => !s.isEmpty
  | .int n => n != 0
  | .bool b => b
  | .none => false
  | .list xs => !xs.isEmpty

/-- Numeric view used by arithmetic comparisons: Python treats `bool` as a
subtype of `int` (`True == 1`). -/
def pyNum : PyVal → Option Int
  | .int n => some n
  | .bool b => some (if b then 1 else 0)
  | _ => Option.none

mutual
/-- Python `==` on the modelled values: never raises; numeric values compare
by value across `int`/`bool`; values of unrelated types are unequal. -/
def pyEq : PyVal → PyVal → Bool
  | .str s, .str t => s == t
  | .int a, .int b => a == b
  | .int a, .bool b => a == (if b then (1 : Int) else 0)
  | .bool a, .int b => (if a then (1 : Int) else 0) == b
  | .bool a, .bool b => a == b
  | .none, .none => true
  | .list xs, .list ys => pyEqList xs ys
  | _, _ => false

/-- Pointwise `==` on lists. -/
def pyEqList : List PyVal → List PyVal → Bool
  | [], [] => true
  | x :: xs, y :: ys => pyEq x y && pyEqList xs ys
  | _, _ => false
end

/-- Code-point-wise lexicographic `<` on strings, as in Python. -/
def strLTb : PyStr → PyStr → Bool
  | [], [] => false
  | [], _ :: _ => true
  | _ :: _, [] => false
  | a :: xs, b :: ys => if a < b then true else if b < a then false else strLTb xs ys

/-- Python `>=`.  Defined for number/number and string/string operands;
other combinations raise `TypeError` (the modelled universe never compares
two containers). -/
def pyGE (a b : PyVal) : Except PyErr Bool :=
  match pyNum a, pyNum b with
  | some x, some y => .ok (decide (y ≤ x))
  | _, _ =>
    match a, b with
    | .str s, .str t => .ok (!strLTb s t)
    | _, _ => .error .typeError

/-- Python `<=`, with the same domain as `pyGE`. -/
def pyLE (a b : PyVal) : Except PyErr Bool :=
  match pyNum a, pyNum b with
  | some x, some y => .ok (decide (x ≤ y))
  | _, _ =>
    match a, b with
    | .str s, .str t => .ok (!strLTb t s)
    | _, _ => .error .typeError

/-- `headMatch needle hay`: `needle` is an initial run of `hay`. -/
def headMatch : PyStr → PyStr → Bool
  | [], _ => true
  | _ :: _, [] => false
  | a :: xs, b :: ys => a == b && headMatch xs ys

/-- Contiguous-substring test: Python `needle in hay` for two strings. -/
def isSubstr (needle : PyStr) : PyStr → Bool
  | [] => needle.isEmpty
  | c :: rest => headMatch needle (c :: rest) || isSubstr needle rest

/-- Python `needle in container` for a string needle: substring test on a
string, element-equality test on a list, `TypeError` otherwise. -/
def pyInStr (needle : PyStr) (container : PyVal) : Except PyErr Bool :=
  match container with
  | .str s => .ok (isSubstr needle s)
  | .list xs => .ok (xs.any (fun v => pyEq (.str needle) v))
  | _ => .error .typeError

/-- `any(k in container for k in ks)`: short-circuits on the first `True`,
raises the first `TypeError` encountered. -/
def pyAnyIn : List PyStr → PyVal → Except PyErr Bool
  | [], _ => .ok false
  | k :: rest, c => do
    let b ← pyInStr k c
    if b then pure true else pyAnyIn rest c

/-! ## Dictionaries as association lists -/

/-- First binding of a key, if any (`k in d` / `d[k]` support). -/
def alookup {α : Type} : List (String × α) → String → Option α
  | [], _ => Option.none
  | (k, v) :: rest, key => if k = key then some v else alookup rest key

/-- `d.get(key, default)`. -/
def aget {α : Type} (d : List (String × α)) (key : String) (dflt : α) : α :=
  (alookup d key).getD dflt

/-- `d[key] = v`: replace the binding if the key is present, append otherwise
(Python dictionaries keep insertion order). -/
def aset {α : Type} : List (String × α) → String → α → List (String × α)
  | [], key, v => [(key, v)]
  | (k, w) :: rest, key, v =>
    if k = key then (k, v) :: rest else (k, w) :: aset rest key v

/-- The keys of a dictionary, in insertion order. -/
def akeys {α : Type} (d : List (String × α)) : List String := d.map Prod.fst

/-- A Python dictionary with string keys and dynamically-typed values
(a raw or normalized song, or a profile). -/
abbrev PyDict := List (String × PyVal)

/-- A playlist map: mood label to list of songs. -/
abbrev PlaylistMap := List (String × List PyDict)

/-! ## The module under verification (`playlist_logic.py`) -/

/-- `HYPE_KEYWORDS = ["rock", "punk", "party"]`. -/
def HYPE_KEYWORDS : List PyStr := [strLit "rock", strLit "punk", strLit "party"]

/-- `CHILL_KEYWORDS = ["lofi", "ambient", "sleep"]`. -/
def CHILL_KEYWORDS : List PyStr := [strLit "lofi", strLit "ambient", strLit "sleep"]

/-- The module-level `DEFAULT_PROFILE` dictionary. -/
def DEFAULT_PROFILE : PyDict :=
  [("name", .str (strLit "Default")),
   ("hype_min_energy", .int 7),
   ("chill_max_energy", .int 3),
   ("favorite_genre", .str (strLit "rock")),
   ("include_mixed", .bool true)]

/-- `normalize_string(value, lowercase=False)`: empty string on non-string
input, else strip and optionally lowercase. -/
def normalize_string (value : PyVal) (lowercase : Bool) : PyStr :=
  match value with
  | .str s =>
    let normalized := strip s
    if lowercase then lower normalized else normalized
  | _ => []

/-- `normalize_title`. -/
def normalize_title (title : PyVal) : PyStr := normalize_string title false

/-- `normalize_artist`. -/
def normalize_artist (artist : PyVal) : PyStr := normalize_string artist true

/-- `normalize_genre`. -/
def normalize_genre (genre : PyVal) : PyStr := normalize_string genre true

/-- `int(s)` for a string operand: strip, optional sign, decimal digits;
`ValueError` (here: `Option.none`) otherwise. -/
def parseDigits (l : List Nat) : Option Nat :=
  if !l.isEmpty && l.all (fun c => 48 ≤ c && c ≤ 57) then
    some (l.foldl (fun acc c => acc * 10 + (c - 48)) 0)
  else Option.none

/-- Fallible integer parse used by `normalize_song` for textual energy. -/
def pyParseInt (s : PyStr) : Option Int :=
  match strip s with
  | [] => Option.none
  | 43 :: rest => (parseDigits rest).map Int.ofNat
  | 45 :: rest => (parseDigits rest).map (fun n => -(Int.ofNat n))
  | l => (parseDigits l).map Int.ofNat

/-- The energy coercion inlined in `normalize_song` (source lines 50-56):
parse a textual energy, defaulting to 0 on `ValueError`; pass every other
value through unchanged. -/
def normEnergy : PyVal → PyVal
  | .str s =>
    match pyParseInt s with
    | some n => .int n
    | Option.none => .int 0
  | v => v

/-- The tags coercion inlined in `normalize_song` (source lines 58-60): wrap
a bare string into a one-element list, pass everything else through. -/
def normTags : PyVal → PyVal
  | .str s => .list [.str s]
  | v => v

/-- `normalize_song(raw)`: stringify-and-normalize the three text fields,
coerce textual energy to an int (0 on parse failure), wrap a string `tags`
into a one-element list, and return the five-key dictionary. -/
def normalize_song (raw : PyDict) : PyDict :=
  let title := normalize_title (.str (pyStr (aget raw "title" (.str []))))
  let artist := normalize_artist (.str (pyStr (aget raw "artist" (.str []))))
  let genre := normalize_genre (.str (pyStr (aget raw "genre" (.str []))))
  let energy := normEnergy (aget raw "energy" (.int 0))
  let tags := normTags (aget raw "tags" (.list []))
  [("title", .str title), ("artist", .str artist), ("genre", .str genre),
   ("energy", energy), ("tags", tags)]

/-- `is_hype(song, profile)`.  The keyword test is evaluated eagerly (it is an
assignment in the source); the disjunction then short-circuits left to right,
so `energy >= hype_min_energy` is only evaluated when the favorite-genre test
fails. -/
def is_hype (song profile : PyDict) : Except PyErr Bool := do
  let energy := aget song "energy" (.int 0)
  let genre := aget song "genre" (.str [])
  let favorite_genre := aget profile "favorite_genre" (.str [])
  let hype_min_energy := aget profile "hype_min_energy" (.int 7)
  let is_hype_keyword ← pyAnyIn HYPE_KEYWORDS genre
  if pyEq genre favorite_genre then pure true
  else do
    let b ← pyGE energy hype_min_energy
    if b then pure true else pure is_hype_keyword

/-- `is_chill(song, profile)`. -/
def is_chill (song profile : PyDict) : Except PyErr Bool := do
  let energy := aget song "energy" (.int 0)
  let chill_max_energy := aget profile "chill_max_energy" (.int 3)
  let genre := aget song "genre" (.str [])
  let is_chill_keyword ← pyAnyIn CHILL_KEYWORDS genre
  let b ← pyLE energy chill_max_energy
  if b then pure true else pure is_chill_keyword

/-- `classify_song(song, profile)`: `is_hype` first, then `is_chill`, else
`"Mixed"`. -/
def classify_song (song profile : PyDict) : Except PyErr String := do
  let h ← is_hype song profile
  if h then pure "Hype"
  else do
    let c ← is_chill song profile
    if c then pure "Chill" else pure "Mixed"

/-- The loop body of `build_playlists`: normalize, classify, attach the mood,
append to the bucket (`playlists[mood]` raises `KeyError` on a missing key,
as in Python). -/
def build_loop (profile : PyDict) : PlaylistMap → List PyDict → Except PyErr PlaylistMap
  | acc, [] => .ok acc
  | acc, song :: rest => do
    let normalized := normalize_song song
    let mood ← classify_song normalized profile
    match alookup acc mood with
    | Option.none => .error .keyError
    | some bucket =>
      build_loop profile
        (aset acc mood (bucket ++ [aset normalized "mood" (.str (strLit mood))])) rest

/-- `build_playlists(songs, profile)`. -/
def build_playlists (songs : List PyDict) (profile : PyDict) : Except PyErr PlaylistMap :=
  build_loop profile [("Hype", []), ("Chill", []), ("Mixed", [])] songs

/-- Elements in first-occurrence order, each once.  Used for the iteration
over `set(a) | set(b)` in `merge_playlists` (Python iterates a set in an
unspecified order; the claims proved below do not depend on the order, and
the model fixes first occurrence) and for the keys of `Counter(artists)`
(a dict, keyed in insertion order). -/
def firstOnce {α : Type} [DecidableEq α] (l : List α) : List α :=
  l.foldl (fun acc x => if x ∈ acc then acc else acc ++ [x]) []

/-- `merge_playlists(a, b)`: fresh map over the union of the key sets, each
key bound to `a.get(key, []) + b.get(key, [])`. -/
def merge_playlists (a b : PlaylistMap) : PlaylistMap :=
  (firstOnce (akeys a ++ akeys b)).map (fun k => (k, aget a k [] ++ aget b k []))

/-- The artist list built by `most_common_artist`: keep songs whose raw
`artist` value is truthy, then stringify and strip. -/
def artistsOf (songs : List PyDict) : List PyStr :=
  (songs.filter (fun s => truthy (aget s "artist" (.str [])))).map
    (fun s => strip (pyStr (aget s "artist" (.str []))))

/-- Fold keeping the first entry of maximal count: `Counter.most_common(1)`
is stable, so ties go to the first-encountered key. -/
def pickMax : List (PyStr × Nat) → PyStr × Nat → PyStr × Nat
  | [], best => best
  | e :: rest, best => pickMax rest (if best.2 < e.2 then e else best)

/-- `Counter(artists).most_common(1)[0]`: entries of the counter in
first-occurrence order with their counts, then the first entry of maximal
count. -/
def mostCommon (l : List PyStr) : PyStr × Nat :=
  match (firstOnce l).map (fun a => (a, l.count a)) with
  | [] => ([], 0)
  | e :: rest => pickMax rest e

/-- `most_common_artist(songs)`. -/
def most_common_artist (songs : List PyDict) : PyStr × Nat :=
  let artists := artistsOf songs
  if artists.isEmpty then ([], 0) else mostCommon artists

/-- The `for` loop of `search_songs`, accumulating matches in order. -/
def search_loop (query_lower : PyStr) (field : String) : List PyDict → List PyDict
  | [] => []
  | song :: rest =>
    let value := lower (pyStr (aget song field (.str [])))
    if !value.isEmpty && isSubstr query_lower value then
      song :: search_loop query_lower field rest
    else search_loop query_lower field rest

/-- `search_songs(songs, query, field="artist")`. -/
def search_songs (songs : List PyDict) (query : PyStr) (field : String) : List PyDict :=
  if query.isEmpty then songs
  else search_loop (strip (lower query)) field songs

/-- The three bucket labels of a freshly built playlist map. -/
def moodLabels : List String := ["Hype", "Chill", "Mixed"]

/-- Raw energy values whose normalized form is numeric: strings are parsed
to ints by `normalize_song`; ints and bools pass through. -/
def energyOKb : PyVal → Bool
  | .str _ => true
  | .int _ => true
  | .bool _ => true
  | _ => false

/-- Ints and bools — the values Python compares against an int threshold
without raising. -/
def numLike : PyVal → Bool
  | .int _ => true
  | .bool _ => true
  | _ => false

/-- The per-song processing of the `build_playlists` loop in input order:
normalize, classify, attach the mood label.  `build_playlists` distributes
exactly this sequence over the three buckets. -/
def classifyAll (profile : PyDict) : List PyDict → Except PyErr (List PyDict)
  | [] => .ok []
  | song :: rest => do
    let normalized := normalize_song song
    let mood ← classify_song normalized profile
    let others ← classifyAll profile rest
    pure (aset normalized "mood" (.str (strLit mood)) :: others)

/-- Whether a processed song carries the given mood label. -/
def moodIs (k : String) (s : PyDict) : Bool :=
  pyEq (aget s "mood" .none) (.str (strLit k))

/-- The spec's worked example: rock/5, lofi/1, jazz/4. -/
def exampleSongs : List PyDict :=
  [[("genre", .str (strLit "rock")), ("energy", .int 5)],
   [("genre", .str (strLit "lofi")), ("energy", .int 1)],
   [("genre", .str (strLit "jazz")), ("energy", .int 4)]]

/-- The playlist map built from `exampleSongs` under the default profile. -/
def exampleBuild : PlaylistMap :=
  match build_playlists exampleSongs DEFAULT_PROFILE with
  | .ok m => m
  | .error _ => []

/-- Concrete input for the `most_common_artist` witness. -/
def artistWitnessSongs : List PyDict :=
  [[("artist", .str (strLit "bob"))], [("artist", .str (strLit "eve"))],
   [("artist", .str (strLit "bob"))]]

/-- Concrete input for the `search_songs` witness. -/
def searchWitnessSongs : List PyDict :=
  [[("artist", .str (strLit "Alice"))], [("artist", .str (strLit "bob"))]]

/-! ## Basic lemmas about the embedding -/

@[simp]
theorem pure_eq_ok {α : Type} (a : α) : (pure a : Except PyErr α) = .ok a := rfl

@[simp]
theorem ok_bind {α β : Type} (a : α) (f : α → Except PyErr β) :
    (Except.ok a : Except PyErr α) >>= f = f a := rfl

@[simp]
theorem error_bind {α β : Type} (e : PyErr) (f : α → Except PyErr β) :
    (Except.error e : Except PyErr α) >>= f = .error e := rfl

@[simp]
theorem pyStr_str (s : PyStr) : pyStr (.str s) = s := rfl

theorem dropWhile_self_of_no_space {l : PyStr} (h : ∀ c ∈ l, isSp c = false) :
    l.dropWhile isSp = l := by
  cases l with
  | nil => rfl
  | cons a t => simp [List.dropWhile_cons, h a (List.mem_cons_self a t)]

theorem strip_of_no_space {l : PyStr} (h : ∀ c ∈ l, isSp c = false) : strip l = l := by
  unfold strip
  rw [dropWhile_self_of_no_space h,
    dropWhile_self_of_no_space (fun c hc => h c (List.mem_reverse.mp hc)),
    List.reverse_reverse]

theorem dropWhile_strip (l : PyStr) : (strip l).dropWhile isSp = strip l := by
  cases hs : strip l with
  | nil => rfl
  | cons a r =>
    have hpre := List.rdropWhile_prefix (p := isSp) (l := l.dropWhile isSp)
    rw [show (l.dropWhile isSp).rdropWhile isSp = strip l from rfl, hs] at hpre
    obtain ⟨t, ht⟩ := hpre
    have hm : (l.dropWhile isSp).dropWhile isSp = l.dropWhile isSp :=
      List.dropWhile_idempotent isSp l
    rw [← ht, List.cons_append, List.dropWhile_cons] at hm
    by_cases ha : isSp a = true
    · rw [if_pos ha] at hm
      have hlen := congrArg List.length hm
      have hle : (List.dropWhile isSp (r ++ t)).length ≤ (r ++ t).length :=
        (List.dropWhile_suffix isSp).length_le
      simp only [List.length_append, List.length_cons] at hlen hle
      omega
    · rw [List.dropWhile_cons, if_neg ha]

theorem strip_strip (l : PyStr) : strip (strip l) = strip l := by
  show ((strip l).dropWhile isSp).rdropWhile isSp = strip l
  rw [dropWhile_strip]
  show ((l.dropWhile isSp).rdropWhile isSp).rdropWhile isSp = _
  rw [List.rdropWhile_idempotent]
  rfl

theorem lowChar_lowChar (c : Nat) : lowChar (lowChar c) = lowChar c := by
  unfold lowChar
  split
  · split <;> omega
  · rfl

theorem isSp_lowChar (c : Nat) : isSp (lowChar c) = isSp c := by
  unfold isSp lowChar
  split
  · rename_i h
    exact decide_eq_decide.mpr (by omega)
  · rfl

theorem lower_lower (l : PyStr) : lower (lower l) = lower l := by
  simp only [lower, List.map_map]
  congr 1
  funext c
  exact lowChar_lowChar c

theorem dropWhile_lower (l : PyStr) :
    (lower l).dropWhile isSp = lower (l.dropWhile isSp) := by
  induction l with
  | nil => rfl
  | cons a t ih =>
    cases h : isSp a <;>
      simp [lower, List.dropWhile_cons, isSp_lowChar, h] <;>
      simpa [lower] using ih

theorem lower_reverse (l : PyStr) : (lower l).reverse = lower l.reverse := by
  simp [lower]

theorem rdropWhile_lower (l : PyStr) :
    (lower l).rdropWhile isSp = lower (l.rdropWhile isSp) := by
  unfold List.rdropWhile
  rw [lower_reverse, dropWhile_lower, lower_reverse]

theorem strip_lower (l : PyStr) : strip (lower l) = lower (strip l) := by
  show ((lower l).dropWhile isSp).rdropWhile isSp = _
  rw [dropWhile_lower, rdropWhile_lower]
  rfl

theorem normEnergy_idem (v : PyVal) : normEnergy (normEnergy v) = normEnergy v := by
  cases v <;> try rfl
  rename_i s
  have h1 : normEnergy (.str s) =
      (match pyParseInt s with | some n => .int n | Option.none => .int 0) := rfl
  rw [h1]
  cases pyParseInt s <;> rfl

theorem normTags_idem (v : PyVal) : normTags (normTags v) = normTags v := by
  cases v <;> rfl

theorem natStrAux_eq_nil (fuel : Nat) :
    ∀ (n : Nat) (acc : List Nat), natStrAux fuel n acc = [] → fuel = 0 ∧ acc = [] := by
  induction fuel with
  | zero => exact fun n acc h => ⟨rfl, h⟩
  | succ fuel ih =>
    intro n acc h
    unfold natStrAux at h
    split at h
    · exact absurd h (by simp)
    · have := ih (n / 10) ((48 + n % 10) :: acc) h
      exact absurd this.2 (by simp)

theorem natStr_ne_nil (n : Nat) : natStr n ≠ [] := by
  intro h
  have := natStrAux_eq_nil (n + 1) n [] h
  omega

theorem intStr_ne_nil (n : Int) : intStr n ≠ [] := by
  unfold intStr
  split
  · simp
  · exact natStr_ne_nil _

theorem natStrAux_ge (fuel : Nat) :
    ∀ (n : Nat) (acc : List Nat), (∀ c ∈ acc, 45 ≤ c) →
      ∀ c ∈ natStrAux fuel n acc, 45 ≤ c := by
  induction fuel with
  | zero => exact fun n acc hacc => hacc
  | succ fuel ih =>
    intro n acc hacc c hc
    unfold natStrAux at hc
    split at hc
    · rcases List.mem_cons.mp hc with h | h
      · omega
      · exact hacc c h
    · refine ih (n / 10) ((48 + n % 10) :: acc) ?_ c hc
      intro d hd
      rcases List.mem_cons.mp hd with h | h
      · omega
      · exact hacc d h

theorem isSp_false_of_ge {c : Nat} (h : 45 ≤ c) : isSp c = false := by
  simp only [isSp, decide_eq_false_iff_not]
  omega

theorem strip_intStr (n : Int) : strip (intStr n) = intStr n := by
  refine strip_of_no_space ?_
  intro c hc
  refine isSp_false_of_ge ?_
  unfold intStr at hc
  split at hc
  · rcases List.mem_cons.mp hc with h | h
    · omega
    · exact natStrAux_ge _ _ [] (by simp) c h
  · exact natStrAux_ge _ _ [] (by simp) c hc

/-! ## Association-list lemmas -/

theorem aget_aset_self {α : Type} (d : List (String × α)) (k : String) (v : α) (dflt : α) :
    aget (aset d k v) k dflt = v := by
  induction d with
  | nil => simp [aget, aset, alookup]
  | cons e rest ih =>
    obtain ⟨k2, w⟩ := e
    by_cases h : k2 = k <;> simp [aget, aset, alookup, h] <;> simpa [aget] using ih

theorem aget_aset_ne {α : Type} (d : List (String × α)) (k key : String) (v : α) (dflt : α)
    (h : key ≠ k) : aget (aset d k v) key dflt = aget d key dflt := by
  induction d with
  | nil => simp [aget, aset, alookup, Ne.symm h]
  | cons e rest ih =>
    obtain ⟨k2, w⟩ := e
    by_cases h2 : k2 = k
    · subst h2
      simp [aget, aset, alookup, Ne.symm h]
    · by_cases h3 : k2 = key
      · simp [aget, aset, alookup, h2, h3, h]
      · simp only [aget, aset, alookup, if_neg h2, if_neg h3]
        simpa [aget] using ih

theorem akeys_aset_of_mem {α : Type} (d : List (String × α)) (k : String) (v : α)
    (h : k ∈ akeys d) : akeys (aset d k v) = akeys d := by
  induction d with
  | nil => simp [akeys] at h
  | cons e rest ih =>
    obtain ⟨k2, w⟩ := e
    by_cases h2 : k2 = k
    · simp [akeys, aset, h2]
    · have hk : k ∈ akeys rest := by
        rcases List.mem_cons.mp h with hh | hh
        · exact absurd hh.symm h2
        · exact hh
      simp [akeys, aset, h2]
      simpa [akeys] using ih hk

theorem alookup_some_of_mem {α : Type} (d : List (String × α)) (k : String)
    (h : k ∈ akeys d) : ∃ v, alookup d k = some v := by
  induction d with
  | nil => simp [akeys] at h
  | cons e rest ih =>
    obtain ⟨k2, w⟩ := e
    by_cases h2 : k2 = k
    · exact ⟨w, by simp [alookup, h2]⟩
    · have hk : k ∈ akeys rest := by
        rcases List.mem_cons.mp h with hh | hh
        · exact absurd hh.symm h2
        · exact hh
      simpa [alookup, h2] using ih hk

theorem alookup_none_of_not_mem {α : Type} (d : List (String × α)) (k : String)
    (h : k ∉ akeys d) : alookup d k = Option.none := by
  induction d with
  | nil => rfl
  | cons e rest ih =>
    obtain ⟨k2, w⟩ := e
    rw [show akeys ((k2, w) :: rest) = k2 :: akeys rest from rfl] at h
    have h2 : k2 ≠ k := fun hh => h (List.mem_cons.mpr (Or.inl hh.symm))
    have hk : k ∉ akeys rest := fun hh => h (List.mem_cons.mpr (Or.inr hh))
    simpa [alookup, h2] using ih hk

/-! ## Classifier helper lemmas -/

theorem classify_mem {song profile : PyDict} {r : String}
    (h : classify_song song profile = .ok r) :
    r = "Hype" ∨ r = "Chill" ∨ r = "Mixed" := by
  unfold classify_song at h
  cases hh : is_hype song profile with
  | error e => simp [hh] at h
  | ok b =>
    cases b
    · cases hc : is_chill song profile with
      | error e => simp [hh, hc] at h
      | ok c =>
        cases c
        · simp [hh, hc, pure_eq_ok] at h
          exact Or.inr (Or.inr h.symm)
        · simp [hh, hc, pure_eq_ok] at h
          exact Or.inr (Or.inl h.symm)
    · simp [hh, pure_eq_ok] at h
      exact Or.inl h.symm

theorem classify_of_hype {song profile : PyDict}
    (h : is_hype song profile = .ok true) :
    classify_song song profile = .ok "Hype" := by
  unfold classify_song
  rw [h]
  rfl

/-! ## Totality helpers for `build_playlists` -/

theorem pyGE_ok_of {a b : PyVal} (ha : numLike a = true) (hb : numLike b = true) :
    ∃ r, pyGE a b = .ok r := by
  cases a <;> cases b <;> simp [numLike] at ha hb <;> exact ⟨_, rfl⟩

theorem pyLE_ok_of {a b : PyVal} (ha : numLike a = true) (hb : numLike b = true) :
    ∃ r, pyLE a b = .ok r := by
  cases a <;> cases b <;> simp [numLike] at ha hb <;> exact ⟨_, rfl⟩

theorem normalize_energy_numLike {raw : PyDict}
    (h : energyOKb (aget raw "energy" (.int 0)) = true) :
    numLike (aget (normalize_song raw) "energy" (.int 0)) = true := by
  have he : aget (normalize_song raw) "energy" (.int 0) =
      normEnergy (aget raw "energy" (.int 0)) := rfl
  rw [he]
  cases hv : aget raw "energy" (.int 0) with
  | str s =>
    have h2 : normEnergy (.str s) =
        (match pyParseInt s with | some n => .int n | Option.none => .int 0) := rfl
    rw [h2]
    cases pyParseInt s <;> rfl
  | int n => rfl
  | bool b => rfl
  | none => rw [hv] at h; simp [energyOKb] at h
  | list xs => rw [hv] at h; simp [energyOKb] at h

theorem normalize_genre_str (raw : PyDict) :
    aget (normalize_song raw) "genre" (.str []) =
      .str (lower (strip (pyStr (aget raw "genre" (.str []))))) := rfl

theorem pyAnyIn_str_ok (ks : List PyStr) (s : PyStr) :
    ∃ b, pyAnyIn ks (.str s) = .ok b := by
  induction ks with
  | nil => exact ⟨false, rfl⟩
  | cons k rest ih =>
    obtain ⟨b, hb⟩ := ih
    by_cases h : isSubstr k s = true
    · exact ⟨true, by simp [pyAnyIn, pyInStr, h]⟩
    · exact ⟨b, by simp [pyAnyIn, pyInStr, h, hb]⟩

theorem is_hype_ok {song profile : PyDict} {s : PyStr}
    (hg : aget song "genre" (.str []) = .str s)
    (he : numLike (aget song "energy" (.int 0)) = true)
    (hp : numLike (aget profile "hype_min_energy" (.int 7)) = true) :
    ∃ b, is_hype song profile = .ok b := by
  obtain ⟨kw, hkw⟩ := pyAnyIn_str_ok HYPE_KEYWORDS s
  obtain ⟨ge, hge⟩ := pyGE_ok_of he hp
  by_cases hq : pyEq (.str s) (aget profile "favorite_genre" (.str [])) = true
  · exact ⟨true, by simp only [is_hype, hg]; simp [hkw, hq]⟩
  · cases ge with
    | true => exact ⟨true, by simp only [is_hype, hg]; simp [hkw, hq, hge]⟩
    | false => exact ⟨kw, by simp only [is_hype, hg]; simp [hkw, hq, hge]⟩

theorem is_chill_ok {song profile : PyDict} {s : PyStr}
    (hg : aget song "genre" (.str []) = .str s)
    (he : numLike (aget song "energy" (.int 0)) = true)
    (hp : numLike (aget profile "chill_max_energy" (.int 3)) = true) :
    ∃ b, is_chill song profile = .ok b := by
  obtain ⟨kw, hkw⟩ := pyAnyIn_str_ok CHILL_KEYWORDS s
  obtain ⟨cl, hcl⟩ := pyLE_ok_of he hp
  cases cl with
  | true => exact ⟨true, by simp only [is_chill, hg]; simp [hkw, hcl]⟩
  | false => exact ⟨kw, by simp only [is_chill, hg]; simp [hkw, hcl]⟩

theorem classify_ok {song profile : PyDict} {s : PyStr}
    (hg : aget song "genre" (.str []) = .str s)
    (he : numLike (aget song "energy" (.int 0)) = true)
    (hph : numLike (aget profile "hype_min_energy" (.int 7)) = true)
    (hpc : numLike (aget profile "chill_max_energy" (.int 3)) = true) :
    ∃ r, classify_song song profile = .ok r := by
  obtain ⟨bh, hbh⟩ := is_hype_ok hg he hph
  cases bh with
  | true => exact ⟨"Hype", classify_of_hype hbh⟩
  | false =>
    obtain ⟨bc, hbc⟩ := is_chill_ok hg he hpc
    cases bc with
    | true => exact ⟨"Chill", by unfold classify_song; rw [hbh]; simp [hbc]⟩
    | false => exact ⟨"Mixed", by unfold classify_song; rw [hbh]; simp [hbc]⟩

theorem build_loop_ok (profile : PyDict)
    (hph : numLike (aget profile "hype_min_energy" (.int 7)) = true)
    (hpc : numLike (aget profile "chill_max_energy" (.int 3)) = true) :
    ∀ (songs : List PyDict) (acc : PlaylistMap), akeys acc = moodLabels →
      (∀ s ∈ songs, energyOKb (aget s "energy" (.int 0)) = true) →
      ∃ m, build_loop profile acc songs = .ok m ∧ akeys m = moodLabels := by
  intro songs
  induction songs with
  | nil => exact fun acc hacc _ => ⟨acc, rfl, hacc⟩
  | cons s rest ih =>
    intro acc hacc hsongs
    obtain ⟨r, hr⟩ := classify_ok (normalize_genre_str s)
      (normalize_energy_numLike (hsongs s (List.mem_cons_self s rest))) hph hpc
    have hmem : r ∈ akeys acc := by
      rw [hacc]
      rcases classify_mem hr with h | h | h <;> simp [moodLabels, h]
    obtain ⟨bucket, hb⟩ := alookup_some_of_mem acc r hmem
    have hkeys2 : akeys (aset acc r
        (bucket ++ [aset (normalize_song s) "mood" (.str (strLit r))])) = moodLabels := by
      rw [akeys_aset_of_mem _ _ _ hmem, hacc]
    obtain ⟨m, hm, hkm⟩ := ih _ hkeys2 (fun x hx => hsongs x (List.mem_cons_of_mem _ hx))
    refine ⟨m, ?_, hkm⟩
    simp only [build_loop]
    rw [hr]
    simp [hb, hm]

/-! ## Bucket characterization of `build_playlists` -/

theorem moodIs_tag (n : PyDict) {mood k : String} (hm : mood ∈ moodLabels)
    (hk : k ∈ moodLabels) :
    moodIs k (aset n "mood" (.str (strLit mood))) = decide (k = mood) := by
  unfold moodIs
  rw [aget_aset_self]
  simp only [moodLabels, List.mem_cons, List.not_mem_nil, or_false] at hm hk
  rcases hm with rfl | rfl | rfl <;> rcases hk with rfl | rfl | rfl <;> decide

theorem classify_mem_moodLabels {song profile : PyDict} {r : String}
    (h : classify_song song profile = .ok r) : r ∈ moodLabels := by
  rcases classify_mem h with h2 | h2 | h2 <;> simp [moodLabels, h2]

theorem build_loop_buckets (profile : PyDict) :
    ∀ (songs : List PyDict) (acc m : PlaylistMap),
      build_loop profile acc songs = .ok m → akeys acc = moodLabels →
      ∃ ts, classifyAll profile songs = .ok ts ∧ ts.length = songs.length ∧
        ∀ k ∈ moodLabels, aget m k [] = aget acc k [] ++ ts.filter (moodIs k) := by
  intro songs
  induction songs with
  | nil =>
    intro acc m h hacc
    have hok : acc = m := Except.ok.inj h
    subst hok
    exact ⟨[], rfl, rfl, fun k _ => by simp⟩
  | cons s rest ih =>
    intro acc m h hacc
    simp only [build_loop] at h
    cases hr : classify_song (normalize_song s) profile with
    | error e => rw [hr] at h; simp at h
    | ok mood =>
      rw [hr] at h
      simp only [ok_bind] at h
      have hmood : mood ∈ moodLabels := classify_mem_moodLabels hr
      have hmem : mood ∈ akeys acc := by rw [hacc]; exact hmood
      obtain ⟨bucket, hb⟩ := alookup_some_of_mem acc mood hmem
      rw [hb] at h
      have hkeys2 : akeys (aset acc mood
          (bucket ++ [aset (normalize_song s) "mood" (.str (strLit mood))])) =
          moodLabels := by
        rw [akeys_aset_of_mem _ _ _ hmem, hacc]
      obtain ⟨ts, h1, h2, h3⟩ := ih _ m h hkeys2
      refine ⟨aset (normalize_song s) "mood" (.str (strLit mood)) :: ts, ?_,
        by simp [h2], ?_⟩
      · simp only [classifyAll]
        rw [hr]
        simp only [ok_bind]
        rw [h1]
        rfl
      · intro k hk
        rw [h3 k hk, List.filter_cons, moodIs_tag _ hmood hk]
        by_cases hkm : k = mood
        · subst hkm
          rw [aget_aset_self]
          have hacck : aget acc k [] = bucket := by simp [aget, hb]
          simp [hacck]
        · rw [aget_aset_ne _ _ _ _ _ hkm]
          simp [hkm]

theorem classifyAll_moods (profile : PyDict) :
    ∀ (songs ts : List PyDict), classifyAll profile songs = .ok ts →
      ∀ s ∈ ts, ∃ mood ∈ moodLabels, aget s "mood" .none = .str (strLit mood) := by
  intro songs
  induction songs with
  | nil =>
    intro ts h
    have : ([] : List PyDict) = ts := Except.ok.inj h
    subst this
    intro s hs
    cases hs
  | cons s rest ih =>
    intro ts h
    simp only [classifyAll] at h
    cases hr : classify_song (normalize_song s) profile with
    | error e => rw [hr] at h; simp at h
    | ok mood =>
      rw [hr] at h
      simp only [ok_bind] at h
      cases hca : classifyAll profile rest with
      | error e => rw [hca] at h; simp at h
      | ok others =>
        rw [hca] at h
        simp only [ok_bind, pure_eq_ok] at h
        have hts := Except.ok.inj h
        subst hts
        intro x hx
        rcases List.mem_cons.mp hx with hx1 | hx2
        · subst hx1
          exact ⟨mood, classify_mem_moodLabels hr, by rw [aget_aset_self]⟩
        · exact ih others hca x hx2

theorem three_filter_length (ts : List PyDict)
    (h : ∀ s ∈ ts, ∃ mood ∈ moodLabels, aget s "mood" .none = .str (strLit mood)) :
    (ts.filter (moodIs "Hype")).length + (ts.filter (moodIs "Chill")).length +
      (ts.filter (moodIs "Mixed")).length = ts.length := by
  induction ts with
  | nil => rfl
  | cons x rest ih =>
    obtain ⟨mood, hm, hx⟩ := h x (List.mem_cons_self x rest)
    have hI := ih (fun s hs => h s (List.mem_cons_of_mem _ hs))
    have hIs : ∀ k, moodIs k x = (strLit mood == strLit k) := fun k => by
      unfold moodIs
      rw [hx]
      rfl
    simp only [List.filter_cons, hIs, List.length_cons]
    simp only [moodLabels, List.mem_cons, List.not_mem_nil, or_false] at hm
    rcases hm with rfl | rfl | rfl <;>
      simp only [show (strLit "Hype" == strLit "Hype") = true from by decide,
        show (strLit "Hype" == strLit "Chill") = false from by decide,
        show (strLit "Hype" == strLit "Mixed") = false from by decide,
        show (strLit "Chill" == strLit "Hype") = false from by decide,
        show (strLit "Chill" == strLit "Chill") = true from by decide,
        show (strLit "Chill" == strLit "Mixed") = false from by decide,
        show (strLit "Mixed" == strLit "Hype") = false from by decide,
        show (strLit "Mixed" == strLit "Chill") = false from by decide,
        show (strLit "Mixed" == strLit "Mixed") = true from by decide,
        List.length_cons] <;> simp <;> omega

/-! ## Merge helpers -/

theorem mem_firstOnce_aux {α : Type} [DecidableEq α] (l : List α) :
    ∀ (acc : List α) (x : α),
      x ∈ l.foldl (fun acc2 y => if y ∈ acc2 then acc2 else acc2 ++ [y]) acc ↔
        x ∈ acc ∨ x ∈ l := by
  induction l with
  | nil => intro acc x; simp
  | cons a t ih =>
    intro acc x
    simp only [List.foldl_cons]
    rw [ih]
    by_cases h : a ∈ acc
    · rw [if_pos h]
      simp only [List.mem_cons]
      constructor
      · rintro (hx | hx)
        · exact Or.inl hx
        · exact Or.inr (Or.inr hx)
      · rintro (hx | rfl | hx)
        · exact Or.inl hx
        · exact Or.inl h
        · exact Or.inr hx
    · rw [if_neg h]
      simp only [List.mem_append, List.mem_singleton, List.mem_cons]
      tauto

theorem mem_firstOnce {α : Type} [DecidableEq α] (l : List α) (x : α) :
    x ∈ firstOnce l ↔ x ∈ l := by
  unfold firstOnce
  rw [mem_firstOnce_aux]
  simp

theorem alookup_graph (l : List String) (g : String → List PyDict) (k : String) :
    alookup (l.map (fun x => (x, g x))) k =
      (if k ∈ l then some (g k) else Option.none) := by
  induction l with
  | nil => simp [alookup]
  | cons a t ih =>
    simp only [List.map_cons, alookup]
    by_cases h : a = k
    · subst h
      simp
    · rw [if_neg h, ih]
      simp [List.mem_cons, Ne.symm h]

/-! ## Most-common-artist helpers -/

theorem map_split {α β : Type} (f : α → β) :
    ∀ (l : List α) (s t : List β) (x : β), l.map f = s ++ x :: t →
      ∃ s0 x0 t0, l = s0 ++ x0 :: t0 ∧ s0.map f = s ∧ f x0 = x ∧ t0.map f = t := by
  intro l
  induction l with
  | nil =>
    intro s t x h
    rw [List.map_nil] at h
    exact absurd h.symm (List.append_ne_nil_of_right_ne_nil s (by simp))
  | cons a l2 ih =>
    intro s t x h
    cases s with
    | nil =>
      rw [List.map_cons, List.nil_append] at h
      obtain ⟨h1, h2⟩ := List.cons.inj h
      exact ⟨[], a, l2, rfl, rfl, h1, h2⟩
    | cons b s2 =>
      rw [List.map_cons, List.cons_append] at h
      obtain ⟨h1, h2⟩ := List.cons.inj h
      obtain ⟨s0, x0, t0, hl, hs, hx, ht⟩ := ih s2 t x h2
      exact ⟨a :: s0, x0, t0, by rw [hl]; rfl, by simp [hs, h1], hx, ht⟩

theorem pickMax_spec :
    ∀ (es : List (PyStr × Nat)) (best : PyStr × Nat),
      (pickMax es best = best ∧ ∀ e ∈ es, e.2 ≤ best.2) ∨
      (∃ l1 l2, es = l1 ++ pickMax es best :: l2 ∧
        best.2 < (pickMax es best).2 ∧
        (∀ e ∈ l1, e.2 < (pickMax es best).2) ∧
        ∀ e ∈ l2, e.2 ≤ (pickMax es best).2) := by
  intro es
  induction es with
  | nil => exact fun best => Or.inl ⟨rfl, by simp⟩
  | cons e rest ih =>
    intro best
    by_cases hlt : best.2 < e.2
    · have hpm : pickMax (e :: rest) best = pickMax rest e := by
        simp [pickMax, hlt]
      rw [hpm]
      rcases ih e with ⟨heq, hall⟩ | ⟨l1, l2, hsplit, hbl, h1, h2⟩
      · rw [heq]
        exact Or.inr ⟨[], rest, rfl, hlt, by simp, hall⟩
      · refine Or.inr ⟨e :: l1, l2, ?_, lt_trans hlt hbl, ?_, h2⟩
        · rw [List.cons_append, ← hsplit]
        · intro x hx
          rcases List.mem_cons.mp hx with rfl | hx2
          · exact hbl
          · exact h1 x hx2
    · have hpm : pickMax (e :: rest) best = pickMax rest best := by
        simp [pickMax, hlt]
      rw [hpm]
      rcases ih best with ⟨heq, hall⟩ | ⟨l1, l2, hsplit, hbl, h1, h2⟩
      · rw [heq]
        refine Or.inl ⟨rfl, ?_⟩
        intro x hx
        rcases List.mem_cons.mp hx with rfl | hx2
        · omega
        · exact hall x hx2
      · refine Or.inr ⟨e :: l1, l2, ?_, hbl, ?_, h2⟩
        · rw [List.cons_append, ← hsplit]
        · intro x hx
          rcases List.mem_cons.mp hx with rfl | hx2
          · omega
          · exact h1 x hx2

theorem mostCommon_spec (l : List PyStr) (hl : l ≠ []) :
    (mostCommon l).1 ∈ l ∧ (mostCommon l).2 = l.count (mostCommon l).1 ∧
    (∀ x ∈ l, l.count x ≤ (mostCommon l).2) ∧
    ∃ u1 u2, firstOnce l = u1 ++ (mostCommon l).1 :: u2 ∧
      ∀ y ∈ u1, l.count y < (mostCommon l).2 := by
  have hne : firstOnce l ≠ [] := by
    cases l with
    | nil => exact absurd rfl hl
    | cons a t =>
      intro h
      have ha : a ∈ firstOnce (a :: t) :=
        (mem_firstOnce _ a).mpr (List.mem_cons_self a t)
      rw [h] at ha
      cases ha
  cases hu : firstOnce l with
  | nil => exact absurd hu hne
  | cons u0 urest =>
    have hmc : mostCommon l =
        pickMax (urest.map (fun x => (x, l.count x))) (u0, l.count u0) := by
      unfold mostCommon
      rw [hu]
      rfl
    have hmemu : ∀ x ∈ firstOnce l, x ∈ l := fun x hx => (mem_firstOnce l x).mp hx
    rcases pickMax_spec (urest.map (fun x => (x, l.count x))) (u0, l.count u0) with
      ⟨heq, hall⟩ | ⟨l1, l2, hsplit, hbl, h1, h2⟩
    · rw [hmc, heq]
      refine ⟨hmemu u0 (by rw [hu]; exact List.mem_cons_self u0 urest), rfl, ?_,
        [], urest, by simp [hu], by simp⟩
      intro x hx
      have hxu : x ∈ firstOnce l := (mem_firstOnce l x).mpr hx
      rw [hu] at hxu
      rcases List.mem_cons.mp hxu with rfl | hx2
      · exact le_refl _
      · exact hall (x, l.count x) (List.mem_map_of_mem _ hx2)
    · obtain ⟨m1, x0, m2, hur, hm1, hx0, hm2⟩ :=
        map_split (fun x => (x, l.count x)) urest l1 l2
          (pickMax (urest.map (fun x => (x, l.count x))) (u0, l.count u0)) hsplit
      have hr1 : (pickMax (urest.map (fun x => (x, l.count x)))
          (u0, l.count u0)).1 = x0 := by rw [← hx0]
      have hr2 : (pickMax (urest.map (fun x => (x, l.count x)))
          (u0, l.count u0)).2 = l.count x0 := by rw [← hx0]
      rw [hmc]
      refine ⟨?_, ?_, ?_, u0 :: m1, m2, ?_, ?_⟩
      · rw [hr1]
        exact hmemu x0 (by rw [hu, hur]; simp)
      · rw [hr1, hr2]
      · intro x hx
        have hxu : x ∈ firstOnce l := (mem_firstOnce l x).mpr hx
        rw [hu, hur] at hxu
        rcases List.mem_cons.mp hxu with rfl | hx2
        · omega
        · rcases List.mem_append.mp hx2 with hx3 | hx3
          · have : (x, l.count x) ∈ l1 := by
              rw [← hm1]
              exact List.mem_map_of_mem _ hx3
            have := h1 _ this
            omega
          · rcases List.mem_cons.mp hx3 with rfl | hx4
            · rw [hr2]
            · have : (x, l.count x) ∈ l2 := by
                rw [← hm2]
                exact List.mem_map_of_mem _ hx4
              exact h2 _ this
      · rw [hr1, hur]
        simp
      · intro y hy
        rcases List.mem_cons.mp hy with rfl | hy2
        · omega
        · have : (y, l.count y) ∈ l1 := by
            rw [← hm1]
            exact List.mem_map_of_mem _ hy2
          exact h1 _ this

/-! ## Search helpers -/

theorem search_loop_filter (ql : PyStr) (field : String) :
    ∀ songs : List PyDict, search_loop ql field songs =
      songs.filter (fun s =>
        !(lower (pyStr (aget s field (.str [])))).isEmpty &&
          isSubstr ql (lower (pyStr (aget s field (.str []))))) := by
  intro songs
  induction songs with
  | nil => rfl
  | cons s rest ih =>
    by_cases h : (!(lower (pyStr (aget s field (.str [])))).isEmpty &&
        isSubstr ql (lower (pyStr (aget s field (.str []))))) = true <;>
      simp [search_loop, List.filter_cons, h, ih]

/-! ## Claim theorems -/

/-- C1: for every song and profile, whenever `classify_song` returns a label
it is one of `"Hype"`, `"Chill"`, `"Mixed"`; and whenever the hype and chill
predicates both hold, the label is `"Hype"` (Hype takes precedence). -/
theorem classify_song_labels (song profile : PyDict) :
    (∀ r, classify_song song profile = .ok r →
      r = "Hype" ∨ r = "Chill" ∨ r = "Mixed") ∧
    (is_hype song profile = .ok true → is_chill song profile = .ok true →
      classify_song song profile = .ok "Hype") :=
  ⟨fun _ h => classify_mem h, fun h1 _ => classify_of_hype h1⟩

/-- Witness for C1 at a concrete song that is both hype (favorite genre
`"rock"`) and chill (energy 1 ≤ 3) under the default profile. -/
theorem classify_song_labels_witness :
    ("Hype" = "Hype" ∨ "Hype" = "Chill" ∨ "Hype" = "Mixed") ∧
    classify_song [("genre", PyVal.str (strLit "rock")), ("energy", PyVal.int 1)]
      DEFAULT_PROFILE = .ok "Hype" :=
  ⟨(classify_song_labels
      [("genre", PyVal.str (strLit "rock")), ("energy", PyVal.int 1)]
      DEFAULT_PROFILE).1 "Hype" (by rfl),
   (classify_song_labels
      [("genre", PyVal.str (strLit "rock")), ("energy", PyVal.int 1)]
      DEFAULT_PROFILE).2 (by rfl) (by rfl)⟩

/-- C2 counterexample: the claim says a non-string `title` normalizes to the
empty string, but `normalize_song` stringifies with `str()` first, so the
integer title `5` yields `"5"`, which is not empty. -/
theorem normalize_nonstring_cex :
    aget (normalize_song [("title", PyVal.int 5)]) "title" (.str []) =
      .str (strLit "5") ∧ strLit "5" ≠ ([] : PyStr) :=
  ⟨rfl, by decide⟩

/-- C2 amended: `normalize_string` itself does map every non-string to the
empty string, but `normalize_song` converts each text field with `str()`
before normalizing, so a non-string `title`/`artist`/`genre` becomes the
trimmed (and, for artist/genre, lowercased) textual form of the value —
non-empty for integers, `None`, and booleans. -/
theorem normalize_nonstring_amended :
    (∀ (v : PyVal) (lc : Bool), (∀ s, v ≠ .str s) → normalize_string v lc = []) ∧
    (∀ (raw : PyDict) (n : Int), aget raw "title" (.str []) = .int n →
      aget (normalize_song raw) "title" (.str []) = .str (intStr n) ∧ intStr n ≠ []) ∧
    (∀ raw : PyDict, aget raw "artist" (.str []) = PyVal.none →
      aget (normalize_song raw) "artist" (.str []) = .str (strLit "none")) ∧
    (∀ (raw : PyDict) (b : Bool), aget raw "genre" (.str []) = .bool b →
      aget (normalize_song raw) "genre" (.str []) ≠ .str []) := by
  refine ⟨?_, ?_, ?_, ?_⟩
  · intro v lc h
    cases v <;> first | rfl | exact absurd rfl (h _)
  · intro raw n h
    have he : aget (normalize_song raw) "title" (.str []) =
        .str (strip (pyStr (aget raw "title" (.str [])))) := rfl
    rw [he, h]
    exact ⟨by rw [show pyStr (.int n) = intStr n from rfl, strip_intStr],
      intStr_ne_nil n⟩
  · intro raw h
    have he : aget (normalize_song raw) "artist" (.str []) =
        .str (lower (strip (pyStr (aget raw "artist" (.str []))))) := rfl
    rw [he, h]
    rfl
  · intro raw b h
    have he : aget (normalize_song raw) "genre" (.str []) =
        .str (lower (strip (pyStr (aget raw "genre" (.str []))))) := rfl
    rw [he, h]
    cases b <;> simp [pyStr, pyRepr, strLit, strip, lower, isSp, lowChar]

/-- Witness for C2's amended theorem at concrete non-string fields. -/
theorem normalize_nonstring_amended_witness :
    normalize_string (PyVal.int 7) true = [] ∧
    aget (normalize_song [("title", PyVal.int 42)]) "title" (.str []) =
      .str (strLit "42") ∧
    aget (normalize_song [("artist", PyVal.none)]) "artist" (.str []) =
      .str (strLit "none") ∧
    aget (normalize_song [("genre", PyVal.bool true)]) "genre" (.str []) ≠ .str [] :=
  ⟨normalize_nonstring_amended.1 (PyVal.int 7) true (fun s h => by cases h),
   by
    have h := (normalize_nonstring_amended.2.1 [("title", PyVal.int 42)] 42 rfl).1
    exact h,
   normalize_nonstring_amended.2.2.1 [("artist", PyVal.none)] rfl,
   normalize_nonstring_amended.2.2.2 [("genre", PyVal.bool true)] true rfl⟩

/-- C3 counterexample: the claim says `build_playlists` never lets an
exception escape, but a song whose `energy` is `None` passes through
normalization unchanged and `None >= 7` raises `TypeError` inside
`is_hype`. -/
theorem build_playlists_cex :
    build_playlists [[("energy", PyVal.none)]] DEFAULT_PROFILE =
      .error .typeError := rfl

/-- C3 amended: `build_playlists` terminates normally with the three-bucket
map provided every song's raw `energy` is a string, int or bool (anything
whose normalized form is numeric) and the profile's two thresholds are ints
or bools (or absent, giving the int defaults).  Malformed `title`, `artist`,
`genre` and `tags` fields of any type degrade to defaults without error. -/
theorem build_playlists_total (songs : List PyDict) (profile : PyDict)
    (hsongs : ∀ s ∈ songs, energyOKb (aget s "energy" (.int 0)) = true)
    (hph : numLike (aget profile "hype_min_energy" (.int 7)) = true)
    (hpc : numLike (aget profile "chill_max_energy" (.int 3)) = true) :
    ∃ m, build_playlists songs profile = .ok m ∧ akeys m = moodLabels :=
  build_loop_ok profile hph hpc songs _ rfl hsongs

/-- Witness for C3's amended theorem: a song with malformed title and
textual energy under the default profile. -/
theorem build_playlists_total_witness :
    ∃ m, build_playlists
      [[("title", PyVal.list []), ("energy", PyVal.str (strLit "9"))]]
      DEFAULT_PROFILE = .ok m ∧ akeys m = moodLabels :=
  build_playlists_total _ DEFAULT_PROFILE
    (fun s hs => by rw [List.mem_singleton.mp hs]; rfl) rfl rfl

/-- C5: whenever `build_playlists` returns a map, each bucket is the
in-input-order filter of the processed song sequence (so relative input
order is preserved inside every bucket), and the three bucket lengths sum
to the input length. -/
theorem build_playlists_buckets (songs : List PyDict) (profile : PyDict)
    (m : PlaylistMap) (h : build_playlists songs profile = .ok m) :
    ∃ ts, classifyAll profile songs = .ok ts ∧ ts.length = songs.length ∧
      aget m "Hype" [] = ts.filter (moodIs "Hype") ∧
      aget m "Chill" [] = ts.filter (moodIs "Chill") ∧
      aget m "Mixed" [] = ts.filter (moodIs "Mixed") ∧
      (aget m "Hype" []).length + (aget m "Chill" []).length +
        (aget m "Mixed" []).length = songs.length := by
  obtain ⟨ts, h1, h2, h3⟩ := build_loop_buckets profile songs _ m h rfl
  have hH := h3 "Hype" (by simp [moodLabels])
  have hC := h3 "Chill" (by simp [moodLabels])
  have hM := h3 "Mixed" (by simp [moodLabels])
  simp only [show aget ([("Hype", []), ("Chill", []), ("Mixed", [])] : PlaylistMap)
      "Hype" [] = [] from rfl,
    show aget ([("Hype", []), ("Chill", []), ("Mixed", [])] : PlaylistMap)
      "Chill" [] = [] from rfl,
    show aget ([("Hype", []), ("Chill", []), ("Mixed", [])] : PlaylistMap)
      "Mixed" [] = [] from rfl, List.nil_append] at hH hC hM
  refine ⟨ts, h1, h2, hH, hC, hM, ?_⟩
  rw [hH, hC, hM, ← h2]
  exact three_filter_length ts (classifyAll_moods profile songs ts h1)

/-- Witness for C5 on the spec's three-song example under the default
profile. -/
theorem build_playlists_buckets_witness :
    build_playlists exampleSongs DEFAULT_PROFILE = .ok exampleBuild ∧
    ∃ ts, classifyAll DEFAULT_PROFILE exampleSongs = .ok ts ∧
      ts.length = exampleSongs.length ∧
      aget exampleBuild "Hype" [] = ts.filter (moodIs "Hype") ∧
      aget exampleBuild "Chill" [] = ts.filter (moodIs "Chill") ∧
      aget exampleBuild "Mixed" [] = ts.filter (moodIs "Mixed") ∧
      (aget exampleBuild "Hype" []).length + (aget exampleBuild "Chill" []).length +
        (aget exampleBuild "Mixed" []).length = exampleSongs.length :=
  ⟨rfl, build_playlists_buckets exampleSongs DEFAULT_PROFILE exampleBuild rfl⟩

/-- C4: normalization is idempotent — normalizing an already-normalized song
gives the same dictionary. -/
theorem normalize_song_idem (raw : PyDict) :
    normalize_song (normalize_song raw) = normalize_song raw := by
  simp [normalize_song, normalize_title, normalize_artist, normalize_genre,
    normalize_string, aget, alookup, strip_strip, strip_lower, lower_lower,
    normEnergy_idem, normTags_idem]

/-- C6: `merge_playlists` returns a map whose key set is the union of the
two key sets; every key is bound to `a.get(key, []) + b.get(key, [])`, so
its bucket length is the sum of the two bucket lengths.  (The embedding is
pure, so neither input can be mutated.) -/
theorem merge_playlists_spec (a b : PlaylistMap) (k : String) :
    (k ∈ akeys (merge_playlists a b) ↔ k ∈ akeys a ∨ k ∈ akeys b) ∧
    alookup (merge_playlists a b) k =
      (if k ∈ akeys a ∨ k ∈ akeys b then some (aget a k [] ++ aget b k [])
       else Option.none) ∧
    (aget (merge_playlists a b) k []).length =
      (aget a k []).length + (aget b k []).length := by
  have hlook : alookup (merge_playlists a b) k =
      (if k ∈ akeys a ∨ k ∈ akeys b then some (aget a k [] ++ aget b k [])
       else Option.none) := by
    rw [show merge_playlists a b =
        (firstOnce (akeys a ++ akeys b)).map
          (fun x => (x, aget a x [] ++ aget b x [])) from rfl,
      alookup_graph]
    simp only [mem_firstOnce, List.mem_append]
  refine ⟨?_, hlook, ?_⟩
  · have hkeys : akeys (merge_playlists a b) = firstOnce (akeys a ++ akeys b) := by
      show List.map Prod.fst ((firstOnce (akeys a ++ akeys b)).map
        (fun x => (x, aget a x [] ++ aget b x []))) = _
      rw [List.map_map,
        show (Prod.fst ∘ fun x =>
          ((x, aget a x [] ++ aget b x []) : String × List PyDict)) = id from rfl,
        List.map_id]
    rw [hkeys, mem_firstOnce, List.mem_append]
  · by_cases hm : k ∈ akeys a ∨ k ∈ akeys b
    · simp [aget, hlook, hm]
    · push_neg at hm
      simp [aget, hlook, hm, alookup_none_of_not_mem a k hm.1,
        alookup_none_of_not_mem b k hm.2]

/-- C9: when the profile has no `"favorite_genre"` key, `is_hype` compares
the song's genre with the default `""`, so every normalized song with empty
genre is hype and `classify_song` returns `"Hype"` regardless of energy. -/
theorem hype_on_missing_favorite (raw profile : PyDict)
    (hp : alookup profile "favorite_genre" = Option.none)
    (hg : aget (normalize_song raw) "genre" (.str []) = .str []) :
    is_hype (normalize_song raw) profile = .ok true ∧
    classify_song (normalize_song raw) profile = .ok "Hype" := by
  have hfav : aget profile "favorite_genre" (.str []) = .str [] := by
    simp [aget, hp]
  have h1 : is_hype (normalize_song raw) profile = .ok true := by
    simp only [is_hype, hg, hfav]
    rfl
  exact ⟨h1, classify_of_hype h1⟩

/-- Witness for C9: the empty raw song under the empty profile. -/
theorem hype_on_missing_favorite_witness :
    is_hype (normalize_song []) [] = .ok true ∧
    classify_song (normalize_song []) [] = .ok "Hype" :=
  hype_on_missing_favorite [] [] rfl rfl

/-- C7 counterexample: the claim says songs whose artist is empty after
trimming are excluded, but the code's filter tests truthiness of the raw
value, so a whitespace-only artist `" "` survives and is trimmed to `""`.
With two such songs and one `"bob"`, the code returns `("", 2)` — neither
`("", 0)` nor an artist drawn from the non-empty trimmed names. -/
theorem most_common_artist_cex :
    most_common_artist
      [[("artist", PyVal.str [32])], [("artist", PyVal.str [32])],
       [("artist", PyVal.str (strLit "bob"))]] = ([], 2) ∧
    (([], 2) : PyStr × Nat) ≠ ([], 0) ∧ ([] : PyStr) ≠ strLit "bob" := by
  refine ⟨rfl, by decide, by decide⟩

/-- C7 amended: `most_common_artist` keeps exactly the songs whose raw
artist value is truthy (so a whitespace-only artist is kept and counted
under the empty trimmed name), returns `("", 0)` when no song survives the
filter, and otherwise returns a trimmed name of maximal occurrence count,
breaking ties by first-encountered order. -/
theorem most_common_artist_spec (songs : List PyDict) :
    (artistsOf songs = [] → most_common_artist songs = ([], 0)) ∧
    (artistsOf songs ≠ [] →
      (most_common_artist songs).1 ∈ artistsOf songs ∧
      (most_common_artist songs).2 =
        (artistsOf songs).count (most_common_artist songs).1 ∧
      (∀ x ∈ artistsOf songs,
        (artistsOf songs).count x ≤ (most_common_artist songs).2) ∧
      ∃ u1 u2, firstOnce (artistsOf songs) =
          u1 ++ (most_common_artist songs).1 :: u2 ∧
        ∀ y ∈ u1, (artistsOf songs).count y < (most_common_artist songs).2) := by
  constructor
  · intro h
    simp only [most_common_artist]
    rw [h]
    rfl
  · intro h
    have hE : (artistsOf songs).isEmpty = false := by
      cases h2 : artistsOf songs
      · exact absurd h2 h
      · rfl
    have hmca : most_common_artist songs = mostCommon (artistsOf songs) := by
      simp only [most_common_artist]
      rw [hE]
      rfl
    rw [hmca]
    exact mostCommon_spec (artistsOf songs) h

/-- Witness for C7's amended theorem: no-artist input and a 2-vs-1 input. -/
theorem most_common_artist_spec_witness :
    most_common_artist [[("title", PyVal.str (strLit "x"))]] = ([], 0) ∧
    ((most_common_artist artistWitnessSongs).1 ∈ artistsOf artistWitnessSongs ∧
      (most_common_artist artistWitnessSongs).2 =
        (artistsOf artistWitnessSongs).count (most_common_artist artistWitnessSongs).1 ∧
      (∀ x ∈ artistsOf artistWitnessSongs,
        (artistsOf artistWitnessSongs).count x ≤
          (most_common_artist artistWitnessSongs).2) ∧
      ∃ u1 u2, firstOnce (artistsOf artistWitnessSongs) =
          u1 ++ (most_common_artist artistWitnessSongs).1 :: u2 ∧
        ∀ y ∈ u1, (artistsOf artistWitnessSongs).count y <
          (most_common_artist artistWitnessSongs).2) :=
  ⟨(most_common_artist_spec [[("title", PyVal.str (strLit "x"))]]).1 rfl,
   (most_common_artist_spec artistWitnessSongs).2 (by decide)⟩

/-- C8: `search_songs` with an empty query returns the input list itself;
with a non-empty query it returns, in order, exactly the songs whose
lowercased stringified field value is non-empty and contains the
lowercased-and-trimmed query as a substring — in particular a song whose
stringified field value is empty never matches. -/
theorem search_songs_spec (songs : List PyDict) (query : PyStr) (field : String) :
    (query = [] → search_songs songs query field = songs) ∧
    (query ≠ [] →
      search_songs songs query field =
        songs.filter (fun s =>
          !(lower (pyStr (aget s field (.str [])))).isEmpty &&
            isSubstr (strip (lower query))
              (lower (pyStr (aget s field (.str []))))) ∧
      ∀ s ∈ search_songs songs query field,
        pyStr (aget s field (.str [])) ≠ []) := by
  constructor
  · intro h
    subst h
    rfl
  · intro h
    have hq : query.isEmpty = false := by
      cases query
      · exact absurd rfl h
      · rfl
    have hs : search_songs songs query field =
        search_loop (strip (lower query)) field songs := by
      unfold search_songs
      rw [hq]
      rfl
    refine ⟨by rw [hs, search_loop_filter], ?_⟩
    intro s hmem hnil
    rw [hs, search_loop_filter] at hmem
    have hp := (List.mem_filter.mp hmem).2
    rw [hnil] at hp
    simp [lower] at hp

/-- Witness for C8: empty query on a two-song list, and the query `"ALI "`
matching only `"Alice"` on the artist field. -/
theorem search_songs_spec_witness :
    search_songs searchWitnessSongs [] "artist" = searchWitnessSongs ∧
    search_songs searchWitnessSongs (strLit "ALI ") "artist" =
      searchWitnessSongs.filter (fun s =>
        !(lower (pyStr (aget s "artist" (.str [])))).isEmpty &&
          isSubstr (strip (lower (strLit "ALI ")))
            (lower (pyStr (aget s "artist" (.str []))))) ∧
    ∀ s ∈ search_songs searchWitnessSongs (strLit "ALI ") "artist",
      pyStr (aget s "artist" (.str [])) ≠ [] :=
  ⟨(search_songs_spec searchWitnessSongs [] "artist").1 rfl,
   ((search_songs_spec searchWitnessSongs (strLit "ALI ") "artist").2 (by decide)).1,
   ((search_songs_spec searchWitnessSongs (strLit "ALI ") "artist").2 (by decide)).2⟩

/-- C10: `normalize_song` returns a dictionary with exactly the five keys
`title`, `artist`, `genre`, `energy`, `tags`; in particular any `mood` key
of the input is dropped. -/
theorem normalize_song_keys (raw : PyDict) :
    akeys (normalize_song raw) = ["title", "artist", "genre", "energy", "tags"] ∧
    alookup (normalize_song raw) "mood" = Option.none :=
  ⟨rfl, rfl⟩

end Playlist
